import Mathlib

/-!
Shallow embedding of the ws-transcription streaming pipeline.

Text is modelled as `List Char`, audio byte buffers as `List Nat`
(bytes, reduced mod 256 where the code reads machine integers), and the
JavaScript `Record<string, string>` attribute maps as association lists
with unique keys updated in place.  External services (Whisper, the
language model) and the floating-point voice-activity gate are passed
to the handlers as explicit oracle functions, since the handlers only
branch on their results; the handlers themselves are embedded from the
source.
-/

namespace WsT

/-- Text (a JavaScript string) is modelled as its list of characters. -/
abbrev Str := List Char

/-- Audio byte buffers are lists of byte values. -/
abbrev Bytes := List Nat

/-- Attribute maps (`Record<string, string>`) as association lists. -/
abbrev AttrMap := List (Str × Str)

/-- `m[f]` on a JavaScript object: `none` when the key is absent. -/
def getVal : AttrMap → Str → Option Str
  | [], _ => none
  | (g, w) :: rest, f => if g = f then some w else getVal rest f

/-- `m[f] = v` on a JavaScript object: replace in place or append. -/
def setKey : AttrMap → Str → Str → AttrMap
  | [], f, v => [(f, v)]
  | (g, w) :: rest, f, v =>
    if g = f then (f, v) :: rest else (g, w) :: setKey rest f v

/-- JavaScript whitespace for `trim` (the characters the code can meet). -/
def isJsSpace (c : Char) : Bool :=
  c == ' ' || c == '\t' || c == '\n' || c == '\r'

/-- JavaScript `s.trim()`. -/
def trimStr (s : Str) : Str :=
  ((s.dropWhile isJsSpace).reverse.dropWhile isJsSpace).reverse

/-- Number of maximal non-whitespace runs; `inWord` tracks whether the
previous character was part of a word. -/
def wordsAux : Str → Bool → Nat
  | [], _ => 0
  | c :: rest, inWord =>
    if isJsSpace c then wordsAux rest false
    else (if inWord then 0 else 1) + wordsAux rest true

/--
JavaScript `s.trim().split(/\s+/).length` as used for the word-count
checks: splitting the empty string yields `[""]`, hence count 1.
-/
def jsWordCount (s : Str) : Nat :=
  if trimStr s = [] then 1 else wordsAux (trimStr s) false

/--
JavaScript `s.slice(-k)` for a literal `k ≥ 0`: the last
`min(k, |s|)` characters, except that `slice(-0)` is `slice(0)`, the
whole string.
-/
def jsSliceNeg (l : Str) (k : Nat) : Str :=
  if k = 0 then l else l.drop (l.length - k)

section Stitcher

/--
Loop body of `appendWithOverlap` from `src/transcription.ts`: the
source iterates `i` from `min(base.length, addition.length)` down to 1,
returning on the first `i` with `base.endsWith(addition.slice(0, i))`,
and falls through to `(base + addition, addition.length)` at `i = 0`.
-/
def awoLoop (base addition : Str) : Nat → Str × Nat
  | 0 => (base ++ addition, addition.length)
  | i + 1 =>
    if addition.take (i + 1) <:+ base then
      (base ++ addition.drop (i + 1), addition.length - (i + 1))
    else
      awoLoop base addition i

/-- `appendWithOverlap` from `src/transcription.ts` lines 11-21. -/
def appendWithOverlap (base addition : Str) : Str × Nat :=
  awoLoop base addition (min base.length addition.length)

/--
Modelled from the spec's words for comparison with the source: the
largest `k` with `0 ≤ k ≤ min(len(base), len(addition))` such that the
last `k` characters of `base` equal the first `k` characters of
`addition`.
-/
def overlapK (base addition : Str) : Nat :=
  Nat.findGreatest (fun k => addition.take k <:+ base)
    (min base.length addition.length)

end Stitcher

section AudioCacheKey

/-- The base64 alphabet used by `Buffer.toString('base64')`. -/
def base64Alphabet : Str :=
  "ABCDEFGHIJKLMNOPQRSTUVWXYZabcdefghijklmnopqrstuvwxyz0123456789+/".toList

/-- Character of the base64 alphabet at index `i`. -/
def b64Char (i : Nat) : Char := base64Alphabet.getD i '?'

/--
Base64 rendering of a byte list, as produced by
`buffer.toString('base64')` in Node: each 3-byte group becomes 4
alphabet characters, with `=` padding for a trailing 1- or 2-byte
group.  Byte values are reduced mod 256 as in the 8-bit buffer.
-/
def b64Encode : Bytes → Str
  | [] => []
  | [a] => [b64Char (a % 256 / 4), b64Char (a % 256 % 4 * 16), '=', '=']
  | [a, b] => [b64Char (a % 256 / 4), b64Char (a % 256 % 4 * 16 + b % 256 / 16),
      b64Char (b % 256 % 16 * 4), '=']
  | a :: b :: c :: rest =>
      b64Char (a % 256 / 4) :: b64Char (a % 256 % 4 * 16 + b % 256 / 16) ::
      b64Char (b % 256 % 16 * 4 + c % 256 / 64) :: b64Char (c % 256 % 64) ::
      b64Encode rest

/--
`createAudioKey` from the audio-cache module (src/unnamed/part_008):
`buffer.toString('base64').slice(0, 64)`.
-/
def createAudioKey (buffer : Bytes) : Str := (b64Encode buffer).take 64

/--
`createCacheKey` from src/unnamed/part_005: identical body to
`createAudioKey`.
-/
def createCacheKey (buffer : Bytes) : Str := (b64Encode buffer).take 64

end AudioCacheKey

section WhisperRetry

/-- `MAX_RETRIES` from `src/transcription.ts`. -/
def MAX_RETRIES : Nat := 2

/-- JavaScript `s.includes(pat)`: substring containment. -/
def includesStr (s pat : Str) : Bool := decide (pat <:+: s)

/-- Outcome of one `fetch` of the Whisper endpoint. -/
inductive FetchOutcome where
  | ok (text : Str)
  | httpErr (status : Nat) (body : Str)
  | netErr (msg : Str)
deriving DecidableEq

/--
The error message thrown for a failed fetch in `runWhisperOnBuffer`:
a non-ok response throws `Whisper API error ${res.status}: ${err}`,
a network failure carries its own message.
-/
def outcomeMessage : FetchOutcome → Str
  | .ok _ => []
  | .httpErr status body =>
      "Whisper API error ".toList ++ (Nat.repr status).toList ++ ": ".toList ++ body
  | .netErr msg => msg

/--
Trace of the retry loop: final result (`none` means the loop threw its
last error), number of fetch attempts made, and the backoff delays in
milliseconds slept between attempts.
-/
structure RetryTrace where
  result : Option Str
  attemptsMade : Nat
  delays : List Nat
deriving DecidableEq

/--
Retry loop of `runWhisperOnBuffer` (`src/transcription.ts` lines
60-99): `for (attempt = 1; attempt <= MAX_RETRIES; attempt++)`; a
caught error breaks without retrying only when its message contains
the substring `'400'`; otherwise, when `attempt < MAX_RETRIES`, it
sleeps `2^attempt * 1000` ms and retries.  `remaining` counts the loop
iterations still allowed, including the current one.
-/
def whisperLoop (fetch : Nat → FetchOutcome) :
    Nat → Nat → Nat → List Nat → RetryTrace
  | _, 0, made, delays => ⟨none, made, delays⟩
  | attempt, remaining + 1, made, delays =>
    match fetch attempt with
    | .ok t => ⟨some t, made + 1, delays⟩
    | o =>
      if includesStr (outcomeMessage o) "400".toList then
        ⟨none, made + 1, delays⟩
      else
        match remaining with
        | 0 => ⟨none, made + 1, delays⟩
        | r + 1 =>
          whisperLoop fetch (attempt + 1) (r + 1) (made + 1)
            (delays ++ [2 ^ attempt * 1000])

/-- The retry loop as entered by `runWhisperOnBuffer`. -/
def runWhisperRetry (fetch : Nat → FetchOutcome) : RetryTrace :=
  whisperLoop fetch 1 MAX_RETRIES 0 []

end WhisperRetry

section FinalSweepText

/-- Separator inserted by `truncateTranscript` for an elided middle. -/
def omittedSep : Str :=
  "\n\n[... middle section omitted for length ...]\n\n".toList

/--
`truncateTranscript` from src/unnamed/part_008 lines 85-91: keep the
text whole when it fits, otherwise keep the first and last
`maxChars / 2` characters with a separator in between.
-/
def truncateTranscript (text : Str) (maxChars : Nat) : Str :=
  if text.length ≤ maxChars then text
  else
    text.take (maxChars / 2) ++ omittedSep ++ jsSliceNeg text (maxChars / 2)

/--
The transcript text handed to the final extraction call by
`parseFinalAttributes` in src/unnamed/part_008 lines 211-212.
-/
def finalSweepInput (t : Str) : Str := truncateTranscript t 6000

/--
The transcript text handed to the final extraction call by
`parseFinalAttributes` in `src/parse-gpt.ts` line 191:
`fullTranscript.slice(-2000)`.
-/
def finalContextText (t : Str) : Str := jsSliceNeg t 2000

/--
Merge loop of `parseFinalAttributes` (src/unnamed/part_008 lines
245-257, equivalently `src/parse-gpt.ts` lines 210-218): iterate over
`Object.entries(finalAttrs)` starting from a copy of the candidates;
a value is written only if it is truthy, not `"N/A"`, nonblank after
trim, and differs from the value already in `merged`.
-/
def parseFinalAttributesMerge : List (Str × Str) → AttrMap → AttrMap
  | [], merged => merged
  | (field, value) :: rest, merged =>
    if value ≠ [] ∧ value ≠ "N/A".toList ∧ trimStr value ≠ [] then
      if getVal merged field ≠ some value then
        parseFinalAttributesMerge rest (setKey merged field value)
      else
        parseFinalAttributesMerge rest merged
    else
      parseFinalAttributesMerge rest merged

end FinalSweepText

section SessionMachine

/-- `MIN_CHUNK_NUM` (util module; value as inlined in part_005). -/
def MIN_CHUNK_NUM : Nat := 14

/-- `MIN_WORD_COUNT` (util module; value as inlined in part_005). -/
def MIN_WORD_COUNT : Nat := 10

/-- `MAX_AUDIO_BUFFER_SIZE` (util module; 5 MB as inlined in part_005). -/
def MAX_AUDIO_BUFFER_SIZE : Nat := 1024 * 1024 * 5

/-- `checkWebMIntegrity` from `src/transcription.ts` lines 7-9:
length at least 4 and `readUInt32BE(0)` equal to the WebM magic. -/
def checkWebMIntegrity (data : Bytes) : Bool :=
  decide (4 ≤ data.length ∧
    data.getD 0 0 % 256 * 16777216 + data.getD 1 0 % 256 * 65536 +
      data.getD 2 0 % 256 * 256 + data.getD 3 0 % 256 = 0x1a45dfa3)

/-- A template field (`FieldDef` from the util module). -/
structure FieldDef where
  block_name : Str
  field_name : Str
deriving DecidableEq

/-- Per-connection session state (`WSState`), src/unnamed/part_004 lines 18-26. -/
structure WSState where
  nchunks : Nat
  audioBuffer : Bytes
  transcript : Str
  currAttributes : AttrMap
  template : List FieldDef
  webmHeader : Option Bytes
  currTranscriptSize : Nat
deriving DecidableEq

/-- A JSON frame sent back to the client. -/
inductive Sent where
  | started (templateSize : Nat)
  | update (correctedAudio : Str) (attributes : AttrMap)
  | updateErr (correctedAudio : Str) (attributes : AttrMap) (error : Str)
  | errorMsg (error : Str)
deriving DecidableEq

/-- External calls a handler performs, in order. -/
inductive ExtCall where
  | whisperCall
  | reviseCall
  | extractCall
  | finalSweepCall
deriving DecidableEq

/--
Oracles for the external services and the float-based voice gate.
`none` models the call rejecting (an exception reaching the handler's
`catch`); `reviseTranscription` and `extractAttributesFromText` can
reject on a network failure, `parseFinalAttributes` catches everything
internally and always returns a map.
-/
structure Ext where
  vad : Bytes → Bool
  whisper : Bytes → Option Str
  revise : Str → Option Str
  extract : Str → List FieldDef → AttrMap → Option AttrMap
  finalSweep : Str → List FieldDef → AttrMap → AttrMap

/--
Header repair applied before using an accumulated buffer:
`if (!checkWebMIntegrity(buf) && header) buf = concat(header, buf)`.
-/
def repairBuffer (buf : Bytes) (header : Option Bytes) : Bytes :=
  if checkWebMIntegrity buf = false then
    match header with
    | some h => h ++ buf
    | none => buf
  else buf

/-- JavaScript object spread `{ ...a, ...b }`: entries of `b` override. -/
def spreadMerge (a b : AttrMap) : AttrMap :=
  b.foldl (fun m kv => setKey m kv.1 kv.2) a

/-- Inner loop of the start handler over one block's field list. -/
def startInitFields (bn : Str) :
    List Str → List FieldDef → AttrMap → List FieldDef × AttrMap
  | [], t, a => (t, a)
  | f :: fs, t, a => startInitFields bn fs (t ++ [⟨bn, f⟩]) (setKey a f [])

/-- Outer loop of the start handler over the blocks. -/
def startInit : List (Str × List Str) → List FieldDef → AttrMap →
    List FieldDef × AttrMap
  | [], t, a => (t, a)
  | (bn, fs) :: rest, t, a =>
    let p := startInitFields bn fs t a
    startInit rest p.1 p.2

/-- The template a valid `blocks` payload produces, in order. -/
def templateOf (blocks : List (Str × List Str)) : List FieldDef :=
  (blocks.map fun p => p.2.map fun f => FieldDef.mk p.1 f).flatten

/--
`start` handler from src/unnamed/part_004 lines 41-63, for a valid
`blocks` payload: populate the template only when it is still empty,
then acknowledge with the current template size in either case.
-/
def startHandler (state : WSState) (blocks : List (Str × List Str)) :
    WSState × List Sent :=
  if state.template.length = 0 then
    let p := startInit blocks state.template state.currAttributes
    ({ state with template := p.1, currAttributes := p.2 },
      [.started p.1.length])
  else
    (state, [.started state.template.length])

/--
Transcription phase of the stop handler's `try` block
(src/unnamed/part_004 lines 91-101): voice gate, Whisper call, word
count on the raw text, revision and stitch.  `none` means an exception
reached the `catch`.
-/
def stopTranscribePhase (ext : Ext) (st1 : WSState) (remainingData : Bytes) :
    Option WSState × List ExtCall :=
  if ext.vad remainingData then
    match ext.whisper remainingData with
    | none => (none, [.whisperCall])
    | some raw =>
      if MIN_WORD_COUNT ≤ jsWordCount raw then
        match ext.revise raw with
        | none => (none, [.whisperCall, .reviseCall])
        | some finalT =>
          let p := appendWithOverlap st1.transcript finalT
          (some { st1 with transcript := p.1, currTranscriptSize := p.2 },
            [.whisperCall, .reviseCall])
      else (some st1, [.whisperCall])
  else (some st1, [])

/--
`stop` handler from src/unnamed/part_004 lines 66-124 (after
`queue.onIdle()` resolves): empty residual buffer responds
immediately; otherwise repair the header, clear the capture state, run
the transcription phase, always ending — on the non-throwing path —
with the final attribute sweep before the response; a throw is caught
and answered with the current state plus `final-processing-failed`.
-/
def stopHandler (ext : Ext) (state : WSState) :
    WSState × List Sent × List ExtCall :=
  if state.audioBuffer = [] then
    (state, [.update state.transcript state.currAttributes], [])
  else
    let remainingData := repairBuffer state.audioBuffer state.webmHeader
    let st1 := { state with audioBuffer := [], nchunks := 0, webmHeader := none }
    match stopTranscribePhase ext st1 remainingData with
    | (none, calls) =>
      (st1, [.updateErr st1.transcript st1.currAttributes
        "final-processing-failed".toList], calls)
    | (some st2, calls) =>
      let attrs := ext.finalSweep st2.transcript st2.template st2.currAttributes
      ({ st2 with currAttributes := attrs },
        [.update st2.transcript attrs], calls ++ [.finalSweepCall])

/--
Binary-frame handler from src/unnamed/part_004 lines 129-203 up to the
point where the transcription job is enqueued; the returned `Bytes`
list holds the snapshot buffers handed to `queue.add`.
-/
def binaryHandler (ext : Ext) (state : WSState) (chunk : Bytes) :
    WSState × List Sent × List Bytes :=
  if MAX_AUDIO_BUFFER_SIZE < state.audioBuffer.length + chunk.length then
    (state, [.errorMsg "audio-buffer-overflow".toList], [])
  else
    let st1 :=
      if state.webmHeader = none ∧ checkWebMIntegrity chunk = true then
        { state with webmHeader := some chunk }
      else state
    let st2 :=
      { st1 with audioBuffer := st1.audioBuffer ++ chunk, nchunks := st1.nchunks + 1 }
    if st2.nchunks < MIN_CHUNK_NUM then
      (st2, [], [])
    else if ext.vad st2.audioBuffer = false then
      ({ st2 with audioBuffer := [], nchunks := 0 }, [], [])
    else
      let capture := repairBuffer st2.audioBuffer st2.webmHeader
      ({ st2 with audioBuffer := [], nchunks := 0 }, [], [capture])

/--
The transcription job enqueued by the binary handler
(src/unnamed/part_004 lines 170-203).  It closes over the session
`state` by reference and reads it only when it runs; any rejection is
caught and reported as `transcription-failed`.
-/
def jobStep (ext : Ext) (captureBuffer : Bytes) (state : WSState) :
    WSState × List Sent :=
  match ext.whisper captureBuffer with
  | none => (state, [.errorMsg "transcription-failed".toList])
  | some transcription =>
    match ext.revise transcription with
    | none => (state, [.errorMsg "transcription-failed".toList])
    | some revisedTranscript =>
      if jsWordCount revisedTranscript < MIN_WORD_COUNT then
        (state, [])
      else
        let prevTranscriptSize := state.currTranscriptSize
        let p := appendWithOverlap state.transcript revisedTranscript
        let st1 := { state with transcript := p.1, currTranscriptSize := p.2 }
        let currTranscript :=
          jsSliceNeg st1.transcript (prevTranscriptSize + st1.currTranscriptSize)
        match ext.extract currTranscript st1.template st1.currAttributes with
        | none => (st1, [.errorMsg "transcription-failed".toList])
        | some extracted =>
          let st2 := { st1 with
            currAttributes := spreadMerge st1.currAttributes extracted }
          (st2, [.update currTranscript st2.currAttributes])

end SessionMachine

section Fixtures

/-- A fresh per-connection state, as initialized on `connection`. -/
def freshState : WSState :=
  { nchunks := 0, audioBuffer := [], transcript := [], currAttributes := [],
    template := [], webmHeader := none, currTranscriptSize := 0 }

/-- A trivial oracle bundle for concrete evaluations. -/
def extId : Ext :=
  { vad := fun _ => true, whisper := fun _ => some [],
    revise := fun s => some s, extract := fun _ _ _ => some [],
    finalSweep := fun _ _ a => a }

/-- Oracle bundle whose final sweep visibly rewrites the attributes. -/
def extSweep : Ext :=
  { vad := fun _ => false, whisper := fun _ => some [],
    revise := fun s => some s, extract := fun _ _ _ => some [],
    finalSweep := fun _ _ _ => [("field".toList, "swept".toList)] }

/-- Oracle bundle for the C8 counterexample: the raw transcription has
3 words, the corrected text has 10. -/
def extRevGrow : Ext :=
  { vad := fun _ => true, whisper := fun _ => some "a b c".toList,
    revise := fun _ => some "one two three four five six seven eight nine ten".toList,
    extract := fun _ _ _ => some [], finalSweep := fun _ _ a => a }

/-- Transcript of 2201 characters whose first character is unique. -/
def c7Transcript : Str := 'b' :: List.replicate 2200 'a'

end Fixtures

/-!
## Lemmas and claim theorems
-/

section StitcherLemmas

lemma awoLoop_eq_findGreatest (base addition : Str) (n : Nat) :
    awoLoop base addition n =
      (base ++ addition.drop (Nat.findGreatest (fun k => addition.take k <:+ base) n),
        addition.length - Nat.findGreatest (fun k => addition.take k <:+ base) n) := by
  induction n with
  | zero => simp [awoLoop]
  | succ i ih =>
    by_cases h : addition.take (i + 1) <:+ base
    · simp [awoLoop, Nat.findGreatest_succ, h]
    · simp only [awoLoop, Nat.findGreatest_succ, h, if_false, ih]

lemma appendWithOverlap_eq (base addition : Str) :
    appendWithOverlap base addition =
      (base ++ addition.drop (overlapK base addition),
        addition.length - overlapK base addition) :=
  awoLoop_eq_findGreatest base addition (min base.length addition.length)

lemma overlapK_le_min (base addition : Str) :
    overlapK base addition ≤ min base.length addition.length :=
  Nat.findGreatest_le _

lemma overlapK_suffix (base addition : Str) :
    addition.take (overlapK base addition) <:+ base := by
  have h : ∀ n,
      addition.take (Nat.findGreatest (fun k => addition.take k <:+ base) n) <:+ base := by
    intro n
    induction n with
    | zero =>
      simp only [Nat.findGreatest_zero, List.take_zero]
      exact ⟨base, by simp⟩
    | succ i ih =>
      by_cases hi : addition.take (i + 1) <:+ base
      · simp [Nat.findGreatest_succ, hi]
      · rw [Nat.findGreatest_succ, if_neg hi]
        exact ih
  exact h _

lemma overlapK_greatest (base addition : Str) :
    ∀ j, j ≤ min base.length addition.length → addition.take j <:+ base →
      j ≤ overlapK base addition :=
  fun _ hj hP => Nat.le_findGreatest hj hP

end StitcherLemmas

/--
Claim C1: for every pair of strings, `appendWithOverlap base addition`
returns `(base ++ addition[k:], |addition| - k)` where `k = overlapK
base addition` is the largest `k ≤ min(|base|, |addition|)` such that
the last `k` characters of `base` equal the first `k` characters of
`addition`; in particular `appendWithOverlap base "" = (base, 0)`.
-/
theorem c1_appendWithOverlap_max_overlap (base addition : Str) :
    appendWithOverlap base addition =
      (base ++ addition.drop (overlapK base addition),
        addition.length - overlapK base addition) ∧
    overlapK base addition ≤ min base.length addition.length ∧
    addition.take (overlapK base addition) <:+ base ∧
    (∀ j, j ≤ min base.length addition.length → addition.take j <:+ base →
      j ≤ overlapK base addition) ∧
    appendWithOverlap base [] = (base, 0) := by
  refine ⟨appendWithOverlap_eq base addition, overlapK_le_min base addition,
    overlapK_suffix base addition, overlapK_greatest base addition, ?_⟩
  have h := appendWithOverlap_eq base []
  have hk : overlapK base [] = 0 := Nat.le_zero.mp (by simpa using overlapK_le_min base [])
  simpa [hk] using h

/--
Closed witness for C1: concrete strings with a 3-character overlap.
-/
theorem c1_appendWithOverlap_max_overlap_witness :
    appendWithOverlap "hello wor".toList "world".toList = ("hello world".toList, 2) ∧
    3 ≤ overlapK "hello wor".toList "world".toList := by
  have h := c1_appendWithOverlap_max_overlap "hello wor".toList "world".toList
  refine ⟨?_, h.2.2.2.1 3 (by decide) (by decide)⟩
  rw [h.1]
  decide

/--
Claim C9: the merged string returned by `appendWithOverlap` has `base`
as a prefix and `addition` as a suffix, its length is `|base|` plus the
returned growth, and the growth is between 0 and `|addition|`.
-/
theorem c9_appendWithOverlap_shape (base addition : Str) :
    base <+: (appendWithOverlap base addition).1 ∧
    addition <:+ (appendWithOverlap base addition).1 ∧
    (appendWithOverlap base addition).1.length =
      base.length + (appendWithOverlap base addition).2 ∧
    (appendWithOverlap base addition).2 ≤ addition.length := by
  have heq := appendWithOverlap_eq base addition
  have hk : addition.take (overlapK base addition) <:+ base :=
    overlapK_suffix base addition
  have hkle : overlapK base addition ≤ addition.length :=
    le_trans (overlapK_le_min base addition) (min_le_right _ _)
  obtain ⟨u, hu⟩ := hk
  rw [heq]
  refine ⟨⟨addition.drop (overlapK base addition), rfl⟩, ⟨u, ?_⟩, ?_, Nat.sub_le _ _⟩
  · calc
      u ++ addition
          = u ++ (addition.take (overlapK base addition) ++
              addition.drop (overlapK base addition)) := by
            rw [List.take_append_drop]
      _ = base ++ addition.drop (overlapK base addition) := by
            rw [← List.append_assoc, hu]
  · simp [Nat.add_sub_cancel' hkle, List.length_drop]

section AudioCacheKeyLemmas

lemma b64Encode_append :
    ∀ (n : Nat) (l rest : Bytes), l.length = 3 * n →
      b64Encode (l ++ rest) = b64Encode l ++ b64Encode rest := by
  intro n
  induction n with
  | zero =>
    intro l rest h
    have hl : l = [] := List.eq_nil_of_length_eq_zero (by omega)
    subst hl
    simp [b64Encode]
  | succ m ih =>
    intro l rest h
    rcases l with _ | ⟨a, _ | ⟨b, _ | ⟨c, l'⟩⟩⟩
    · simp at h
    · simp at h; omega
    · simp at h; omega
    · have h' : l'.length = 3 * m := by simp at h; omega
      simp only [List.cons_append, b64Encode]
      rw [List.append_eq, ih l' rest h']

lemma b64Encode_length :
    ∀ (n : Nat) (l : Bytes), l.length = 3 * n → (b64Encode l).length = 4 * n := by
  intro n
  induction n with
  | zero =>
    intro l h
    have hl : l = [] := List.eq_nil_of_length_eq_zero (by omega)
    subst hl
    simp [b64Encode]
  | succ m ih =>
    intro l h
    rcases l with _ | ⟨a, _ | ⟨b, _ | ⟨c, l'⟩⟩⟩
    · simp at h
    · simp at h; omega
    · simp at h; omega
    · have h' : l'.length = 3 * m := by simp at h; omega
      simp only [b64Encode, List.length_cons, ih l' h']
      omega

lemma createAudioKey_eq_of_first48 (b : Bytes) (hb : 48 ≤ b.length) :
    createAudioKey b = b64Encode (b.take 48) := by
  have hsplit : b.take 48 ++ b.drop 48 = b := List.take_append_drop 48 b
  have hlen : (b.take 48).length = 48 := by
    simp only [List.length_take]
    omega
  have henc : b64Encode b = b64Encode (b.take 48) ++ b64Encode (b.drop 48) := by
    conv_lhs => rw [← hsplit]
    exact b64Encode_append 16 _ _ (by rw [hlen])
  have hlen64 : (b64Encode (b.take 48)).length = 64 := by
    have h := b64Encode_length 16 (b.take 48) (by rw [hlen])
    simpa using h
  unfold createAudioKey
  rw [henc, ← hlen64, List.take_left]

end AudioCacheKeyLemmas

/--
Claim C10: `createAudioKey` (and the identical `createCacheKey`) keys
the audio cache only on the first 64 base64 characters of the buffer,
which are determined by its first 48 bytes; two buffers of length at
least 48 agreeing on their first 48 bytes get the same key, so the
cache can return a transcript cached for different audio content.
-/
theorem c10_cache_key_first48_collision (b1 b2 : Bytes)
    (h1 : 48 ≤ b1.length) (h2 : 48 ≤ b2.length)
    (h : b1.take 48 = b2.take 48) :
    createAudioKey b1 = createAudioKey b2 ∧
    createCacheKey b1 = createAudioKey b1 := by
  refine ⟨?_, rfl⟩
  rw [createAudioKey_eq_of_first48 b1 h1, createAudioKey_eq_of_first48 b2 h2, h]

/--
Closed witness for C10: two concrete buffers differing in byte 48
receive the same cache key.
-/
theorem c10_cache_key_first48_collision_witness :
    createAudioKey (List.replicate 48 0 ++ [255]) =
      createAudioKey (List.replicate 48 0 ++ [7]) ∧
    (List.replicate 48 0 ++ [255] : Bytes) ≠ List.replicate 48 0 ++ [7] := by
  refine ⟨(c10_cache_key_first48_collision _ _ ?_ ?_ ?_).1, by decide⟩
  · decide
  · decide
  · decide

/--
Claim C5 (code bug): a client-error-class response whose status is not
400 is retried.  A 404 response on every attempt leads to 2 fetch
attempts with a 2000 ms exponential-backoff delay between them, because
the abort test is `error.message.includes('400')`; only a literal 400
status aborts after a single attempt.  The claim (and the code's own
comment) requires immediate abort on every 4xx-equivalent response.
-/
theorem c5_whisper_retry_client_error :
    runWhisperRetry (fun _ => .httpErr 404 "Not Found".toList) =
      ⟨none, 2, [2000]⟩ ∧
    runWhisperRetry (fun _ => .httpErr 400 "Bad Request".toList) =
      ⟨none, 1, []⟩ ∧
    MAX_RETRIES = 2 := by
  refine ⟨?_, ?_, rfl⟩ <;> decide

section FinalMergeLemmas

lemma getVal_setKey (m : AttrMap) (f g v : Str) :
    getVal (setKey m g v) f = if f = g then some v else getVal m f := by
  induction m with
  | nil =>
    by_cases h : f = g
    · subst h; simp [setKey, getVal]
    · simp [setKey, getVal, h, Ne.symm h]
  | cons p rest ih =>
    obtain ⟨g', w'⟩ := p
    by_cases hg : g' = g
    · subst hg
      by_cases h : f = g'
      · subst h; simp [setKey, getVal]
      · simp [setKey, getVal, h, Ne.symm h]
    · by_cases h : g' = f
      · subst h
        simp [setKey, getVal, hg]
      · simp [setKey, getVal, hg, h, ih]

lemma parseFinalAttributesMerge_not_mem :
    ∀ (entries : List (Str × Str)) (m : AttrMap) (f : Str),
      f ∉ entries.map Prod.fst →
      getVal (parseFinalAttributesMerge entries m) f = getVal m f := by
  intro entries
  induction entries with
  | nil => intro m f _; rfl
  | cons p rest ih =>
    intro m f hf
    obtain ⟨g, w⟩ := p
    have hfg : f ≠ g := by
      intro h
      exact hf (by simp [h])
    have hfr : f ∉ rest.map Prod.fst := fun h => hf (by simp [h])
    have hset : getVal (setKey m g w) f = getVal m f := by
      rw [getVal_setKey, if_neg hfg]
    by_cases hacc : w ≠ [] ∧ w ≠ "N/A".toList ∧ trimStr w ≠ []
    · by_cases hdiff : getVal m g ≠ some w
      · simp only [parseFinalAttributesMerge, if_pos hacc, if_pos hdiff]
        rw [ih _ f hfr, hset]
      · simp only [parseFinalAttributesMerge, if_pos hacc, if_neg hdiff]
        exact ih _ f hfr
    · simp only [parseFinalAttributesMerge, if_neg hacc]
      exact ih _ f hfr

lemma parseFinalAttributesMerge_mem :
    ∀ (entries : List (Str × Str)) (m : AttrMap) (f v : Str),
      (entries.map Prod.fst).Nodup → (f, v) ∈ entries →
      getVal (parseFinalAttributesMerge entries m) f =
        if v ≠ [] ∧ v ≠ "N/A".toList ∧ trimStr v ≠ [] then some v
        else getVal m f := by
  intro entries
  induction entries with
  | nil => intro m f v _ hmem; cases hmem
  | cons p rest ih =>
    intro m f v hnd hmem
    obtain ⟨g, w⟩ := p
    have hnd' : (rest.map Prod.fst).Nodup := (List.nodup_cons.mp hnd).2
    have hgrest : g ∉ rest.map Prod.fst := (List.nodup_cons.mp hnd).1
    rcases List.mem_cons.mp hmem with hhead | htail
    · have hfg : f = g := congrArg Prod.fst hhead
      have hvw : v = w := congrArg Prod.snd hhead
      subst hfg; subst hvw
      have hfrest : f ∉ rest.map Prod.fst := hgrest
      by_cases hacc : v ≠ [] ∧ v ≠ "N/A".toList ∧ trimStr v ≠ []
      · rw [if_pos hacc]
        by_cases hdiff : getVal m f ≠ some v
        · simp only [parseFinalAttributesMerge, if_pos hacc, if_pos hdiff]
          rw [parseFinalAttributesMerge_not_mem rest _ f hfrest,
            getVal_setKey, if_pos rfl]
        · simp only [parseFinalAttributesMerge, if_pos hacc, if_neg hdiff]
          rw [parseFinalAttributesMerge_not_mem rest _ f hfrest]
          exact not_not.mp hdiff
      · rw [if_neg hacc]
        simp only [parseFinalAttributesMerge, if_neg hacc]
        exact parseFinalAttributesMerge_not_mem rest _ f hfrest
    · have hfg : f ≠ g := by
        intro h
        subst h
        exact hgrest (by simpa using ⟨v, htail⟩)
      have hset : getVal (setKey m g w) f = getVal m f := by
        rw [getVal_setKey, if_neg hfg]
      by_cases hacc : w ≠ [] ∧ w ≠ "N/A".toList ∧ trimStr w ≠ []
      · by_cases hdiff : getVal m g ≠ some w
        · simp only [parseFinalAttributesMerge, if_pos hacc, if_pos hdiff]
          rw [ih _ f v hnd' htail, hset]
        · simp only [parseFinalAttributesMerge, if_pos hacc, if_neg hdiff]
          exact ih _ f v hnd' htail
      · simp only [parseFinalAttributesMerge, if_neg hacc]
        exact ih _ f v hnd' htail

end FinalMergeLemmas

/--
Claim C6: in the final-sweep merge, a model value overwrites the
candidate only if it is non-empty and not the `"N/A"` marker; when the
field is absent from the model output, or its value is empty or the
marker, the candidate value is retained unchanged.
-/
theorem c6_final_merge_policy (entries : List (Str × Str)) (candidate : AttrMap)
    (hnd : (entries.map Prod.fst).Nodup) (f : Str) :
    ((∀ v, (f, v) ∉ entries) →
      getVal (parseFinalAttributesMerge entries candidate) f = getVal candidate f) ∧
    (∀ v, (f, v) ∈ entries → (v = [] ∨ v = "N/A".toList) →
      getVal (parseFinalAttributesMerge entries candidate) f = getVal candidate f) ∧
    (getVal (parseFinalAttributesMerge entries candidate) f ≠ getVal candidate f →
      ∃ v, (f, v) ∈ entries ∧ v ≠ [] ∧ v ≠ "N/A".toList ∧
        getVal (parseFinalAttributesMerge entries candidate) f = some v) := by
  refine ⟨?_, ?_, ?_⟩
  · intro habs
    apply parseFinalAttributesMerge_not_mem
    intro hmem
    obtain ⟨⟨f', v⟩, hin, hfst⟩ := List.mem_map.mp hmem
    cases hfst
    exact habs v hin
  · intro v hmem hbad
    rw [parseFinalAttributesMerge_mem entries candidate f v hnd hmem]
    have : ¬(v ≠ [] ∧ v ≠ "N/A".toList ∧ trimStr v ≠ []) := by
      rcases hbad with h | h <;> subst h <;> simp
    rw [if_neg this]
  · intro hchange
    by_cases hmemk : f ∈ entries.map Prod.fst
    · obtain ⟨⟨f', v⟩, hin, hfst⟩ := List.mem_map.mp hmemk
      cases hfst
      have h := parseFinalAttributesMerge_mem entries candidate f' v hnd hin
      by_cases hacc : v ≠ [] ∧ v ≠ "N/A".toList ∧ trimStr v ≠ []
      · exact ⟨v, hin, hacc.1, hacc.2.1, by rw [h, if_pos hacc]⟩
      · rw [h, if_neg hacc] at hchange
        exact absurd rfl hchange
    · exact absurd (parseFinalAttributesMerge_not_mem entries candidate f hmemk) hchange

/--
Closed witness for C6: a `"N/A"` model value and an absent field both
leave the candidate values unchanged; a real value overwrites.
-/
theorem c6_final_merge_policy_witness :
    getVal (parseFinalAttributesMerge
        [("name".toList, "Alice".toList), ("dob".toList, "N/A".toList)]
        [("name".toList, [] ), ("dob".toList, "1990".toList)]) "dob".toList =
      some "1990".toList := by
  have h := c6_final_merge_policy
    [("name".toList, "Alice".toList), ("dob".toList, "N/A".toList)]
    [("name".toList, [] ), ("dob".toList, "1990".toList)]
    (by decide) "dob".toList
  rw [h.2.1 "N/A".toList (by decide) (Or.inr rfl)]
  decide

/--
Claim C7 (amended, part_008 side): the text handed to the final
extraction call is the whole transcript when it fits in 6000
characters; a longer transcript is truncated to its first 3000 and
last 3000 characters, so a prefix and a suffix of the transcript
always survive.
-/
theorem c7_final_sweep_text_keeps_ends (t : Str) :
    (t.length ≤ 6000 → finalSweepInput t = t) ∧
    t.take 3000 <+: finalSweepInput t ∧
    t.drop (t.length - 3000) <:+ finalSweepInput t := by
  unfold finalSweepInput truncateTranscript
  by_cases h : t.length ≤ 6000
  · rw [if_pos h]
    exact ⟨fun _ => rfl, ⟨t.drop 3000, List.take_append_drop 3000 t⟩,
      ⟨t.take (t.length - 3000), List.take_append_drop (t.length - 3000) t⟩⟩
  · rw [if_neg h]
    have h2 : (6000 : Nat) / 2 = 3000 := by norm_num
    rw [h2]
    refine ⟨fun hle => absurd hle h, ?_, ?_⟩
    · exact ⟨omittedSep ++ jsSliceNeg t 3000, by simp⟩
    · have hs : jsSliceNeg t 3000 = t.drop (t.length - 3000) := by
        unfold jsSliceNeg
        rw [if_neg (by norm_num)]
      rw [← hs]
      exact ⟨t.take 3000 ++ omittedSep, by simp⟩

/--
Closed witness for C7: a short transcript is passed whole to the final
extraction call.
-/
theorem c7_final_sweep_text_keeps_ends_witness :
    finalSweepInput "short transcript".toList = "short transcript".toList :=
  (c7_final_sweep_text_keeps_ends "short transcript".toList).1 (by decide)

/--
Counterexample for C7 as stated: in the `src/parse-gpt.ts` variant the
final extraction call receives `fullTranscript.slice(-2000)` — a single
contiguous slice.  On a 2201-character transcript the prepared text is
not the whole transcript and does not retain any nonempty prefix of
it: the transcript's first character is gone.
-/
theorem c7_parse_gpt_contiguous_slice :
    finalContextText c7Transcript ≠ c7Transcript ∧
    ¬ c7Transcript.take 1 <+: finalContextText c7Transcript ∧
    finalContextText c7Transcript = List.replicate 2000 'a' := by
  have hfc : finalContextText c7Transcript = List.replicate 2000 'a' := by
    unfold finalContextText jsSliceNeg c7Transcript
    rw [if_neg (by norm_num)]
    have hlen : ('b' :: List.replicate 2200 'a' : Str).length = 2201 := by
      rw [List.length_cons, List.length_replicate]
    rw [hlen]
    have h201 : (2201 : Nat) - 2000 = 200 + 1 := by norm_num
    rw [h201, List.drop_succ_cons, List.drop_replicate]
  have hb : ('b' : Char) ≠ 'a' := by decide
  refine ⟨?_, ?_, hfc⟩
  · rw [hfc]
    intro h
    have hmem : ('b' : Char) ∈ List.replicate 2000 'a' := by
      rw [h]
      exact List.mem_cons_self _ _
    exact hb (List.eq_of_mem_replicate hmem)
  · rw [hfc]
    intro hpre
    obtain ⟨s, hs⟩ := hpre
    have htake : c7Transcript.take 1 = ['b'] := rfl
    rw [htake] at hs
    have hmem : ('b' : Char) ∈ List.replicate 2000 'a' := by
      rw [← hs]
      exact List.mem_cons_self _ _
    exact hb (List.eq_of_mem_replicate hmem)

section StartHandlerLemmas

lemma startInitFields_fst (bn : Str) :
    ∀ (fs : List Str) (t : List FieldDef) (a : AttrMap),
      (startInitFields bn fs t a).1 = t ++ fs.map fun f => FieldDef.mk bn f := by
  intro fs
  induction fs with
  | nil => intro t a; simp [startInitFields]
  | cons f fs ih =>
    intro t a
    simp only [startInitFields, List.map_cons]
    rw [ih]
    simp

lemma startInit_fst :
    ∀ (blocks : List (Str × List Str)) (t : List FieldDef) (a : AttrMap),
      (startInit blocks t a).1 = t ++ templateOf blocks := by
  intro blocks
  induction blocks with
  | nil => intro t a; simp [startInit, templateOf]
  | cons p rest ih =>
    intro t a
    obtain ⟨bn, fs⟩ := p
    simp only [startInit]
    rw [ih, startInitFields_fst]
    simp [templateOf]

lemma startInitFields_attr_pres (bn : Str) :
    ∀ (fs : List Str) (t : List FieldDef) (a : AttrMap) (f : Str),
      getVal a f = some [] →
      getVal (startInitFields bn fs t a).2 f = some [] := by
  intro fs
  induction fs with
  | nil => intro t a f h; exact h
  | cons g fs ih =>
    intro t a f h
    simp only [startInitFields]
    apply ih
    rw [getVal_setKey]
    by_cases hfg : f = g
    · rw [if_pos hfg]
    · rw [if_neg hfg]; exact h

lemma startInitFields_attr_mem (bn : Str) :
    ∀ (fs : List Str) (t : List FieldDef) (a : AttrMap) (f : Str),
      f ∈ fs →
      getVal (startInitFields bn fs t a).2 f = some [] := by
  intro fs
  induction fs with
  | nil => intro t a f h; cases h
  | cons g fs ih =>
    intro t a f h
    rcases List.mem_cons.mp h with h | h
    · subst h
      simp only [startInitFields]
      apply startInitFields_attr_pres
      rw [getVal_setKey, if_pos rfl]
    · simp only [startInitFields]
      exact ih _ _ f h

lemma startInit_attr_pres :
    ∀ (blocks : List (Str × List Str)) (t : List FieldDef) (a : AttrMap) (f : Str),
      getVal a f = some [] →
      getVal (startInit blocks t a).2 f = some [] := by
  intro blocks
  induction blocks with
  | nil => intro t a f h; exact h
  | cons p rest ih =>
    intro t a f h
    obtain ⟨bn, fs⟩ := p
    simp only [startInit]
    exact ih _ _ f (startInitFields_attr_pres bn fs t a f h)

lemma startInit_attr_mem :
    ∀ (blocks : List (Str × List Str)) (t : List FieldDef) (a : AttrMap)
      (bn : Str) (fs : List Str) (f : Str),
      (bn, fs) ∈ blocks → f ∈ fs →
      getVal (startInit blocks t a).2 f = some [] := by
  intro blocks
  induction blocks with
  | nil => intro t a bn fs f h _; cases h
  | cons p rest ih =>
    intro t a bn fs f hmem hf
    obtain ⟨bn', fs'⟩ := p
    rcases List.mem_cons.mp hmem with h | h
    · have hbn : bn = bn' := congrArg Prod.fst h
      have hfs : fs = fs' := congrArg Prod.snd h
      subst hbn
      subst hfs
      simp only [startInit]
      exact startInit_attr_pres rest _ _ f (startInitFields_attr_mem bn fs t a f hf)
    · simp only [startInit]
      exact ih _ _ bn fs f h hf

end StartHandlerLemmas

/--
Claim C4: the template is set at most once per session.  A start
message arriving with the template still empty populates it from the
blocks in order and initializes every listed field's attribute to the
empty string; a start message arriving with the template already set
leaves the state unchanged, acknowledges with the unchanged template
size, and produces no error.
-/
theorem c4_template_set_once (state : WSState) (blocks : List (Str × List Str)) :
    (state.template = [] →
      (startHandler state blocks).1.template = templateOf blocks ∧
      (∀ bn fs f, (bn, fs) ∈ blocks → f ∈ fs →
        getVal (startHandler state blocks).1.currAttributes f = some []) ∧
      (startHandler state blocks).2 = [Sent.started (templateOf blocks).length]) ∧
    (state.template ≠ [] →
      (startHandler state blocks).1 = state ∧
      (startHandler state blocks).2 = [Sent.started state.template.length] ∧
      ∀ e, Sent.errorMsg e ∉ (startHandler state blocks).2) := by
  constructor
  · intro h0
    have hlen : state.template.length = 0 := by rw [h0]; rfl
    simp only [startHandler, if_pos hlen]
    refine ⟨?_, ?_, ?_⟩
    · rw [startInit_fst, h0]
      simp
    · intro bn fs f hb hf
      exact startInit_attr_mem blocks _ _ bn fs f hb hf
    · rw [startInit_fst, h0]
      simp
  · intro h0
    have hlen : ¬ state.template.length = 0 := by
      intro h
      exact h0 (List.eq_nil_of_length_eq_zero h)
    unfold startHandler
    rw [if_neg hlen]
    refine ⟨rfl, rfl, ?_⟩
    intro e
    simp

/--
Closed witness for C4: a first start initializes `name` to the empty
string; a second start with the template already set is a no-op.
-/
theorem c4_template_set_once_witness :
    getVal (startHandler freshState
        [("id".toList, ["name".toList, "dob".toList])]).1.currAttributes
      "name".toList = some [] ∧
    (startHandler { freshState with template := [⟨"id".toList, "name".toList⟩] }
        [("other".toList, ["x".toList])]).1 =
      { freshState with template := [⟨"id".toList, "name".toList⟩] } := by
  constructor
  · exact ((c4_template_set_once freshState
      [("id".toList, ["name".toList, "dob".toList])]).1 rfl).2.1
      "id".toList ["name".toList, "dob".toList] "name".toList (by decide) (by decide)
  · exact ((c4_template_set_once
      { freshState with template := [⟨"id".toList, "name".toList⟩] }
      [("other".toList, ["x".toList])]).2 (by decide)).1

section BufferLemmas

lemma binaryHandler_overflow (ext : Ext) (state : WSState) (chunk : Bytes)
    (h : MAX_AUDIO_BUFFER_SIZE < state.audioBuffer.length + chunk.length) :
    binaryHandler ext state chunk =
      (state, [Sent.errorMsg "audio-buffer-overflow".toList], []) := by
  unfold binaryHandler
  rw [if_pos h]

lemma binaryHandler_buffer_bound (ext : Ext) (state : WSState) (chunk : Bytes)
    (h : state.audioBuffer.length ≤ MAX_AUDIO_BUFFER_SIZE) :
    (binaryHandler ext state chunk).1.audioBuffer.length ≤ MAX_AUDIO_BUFFER_SIZE := by
  by_cases hov : MAX_AUDIO_BUFFER_SIZE < state.audioBuffer.length + chunk.length
  · rw [binaryHandler_overflow ext state chunk hov]
    exact h
  · simp only [binaryHandler, if_neg hov]
    split_ifs <;> simp [List.length_append] <;> omega

lemma startHandler_buffer (state : WSState) (blocks : List (Str × List Str)) :
    (startHandler state blocks).1.audioBuffer = state.audioBuffer := by
  unfold startHandler
  split_ifs <;> rfl

lemma jobStep_buffer (ext : Ext) (buf : Bytes) (state : WSState) :
    (jobStep ext buf state).1.audioBuffer = state.audioBuffer := by
  simp only [jobStep]
  split
  · rfl
  · split
    · rfl
    · split
      · rfl
      · split
        · rfl
        · rfl

lemma stopTranscribePhase_some_buffer (ext : Ext) (st1 : WSState) (d : Bytes)
    (st2 : WSState) (calls : List ExtCall)
    (h : stopTranscribePhase ext st1 d = (some st2, calls)) :
    st2.audioBuffer = st1.audioBuffer := by
  simp only [stopTranscribePhase] at h
  split at h
  · split at h
    · exact absurd (congrArg Prod.fst h) (by simp)
    · split at h
      · split at h
        · exact absurd (congrArg Prod.fst h) (by simp)
        · injection h with h1 h2
          injection h1 with h1
          subst h1
          rfl
      · injection h with h1 h2
        injection h1 with h1
        subst h1
        rfl
  · injection h with h1 h2
    injection h1 with h1
    subst h1
    rfl

lemma stopHandler_buffer (ext : Ext) (state : WSState) :
    (stopHandler ext state).1.audioBuffer = [] := by
  by_cases h : state.audioBuffer = []
  · simp only [stopHandler, if_pos h]
    exact h
  · simp only [stopHandler, if_neg h]
    rcases hp : stopTranscribePhase ext
        { state with audioBuffer := [], nchunks := 0, webmHeader := none }
        (repairBuffer state.audioBuffer state.webmHeader) with ⟨o, calls⟩
    cases o with
    | none =>
      rfl
    | some st2 =>
      exact stopTranscribePhase_some_buffer ext _ _ _ _ hp

end BufferLemmas

/--
Claim C3: a binary chunk that would push `audioBuffer` past
`MAX_AUDIO_BUFFER_SIZE` is dropped: the handler returns the session
state unchanged, emits exactly one `audio-buffer-overflow` error, and
schedules no job; consequently — since the start handler, the stop
handler and the transcription job never grow the buffer — the buffer
length never exceeds the limit at any handler boundary.
-/
theorem c3_audio_buffer_overflow (ext : Ext) (state : WSState) (chunk : Bytes) :
    (MAX_AUDIO_BUFFER_SIZE < state.audioBuffer.length + chunk.length →
      binaryHandler ext state chunk =
        (state, [Sent.errorMsg "audio-buffer-overflow".toList], [])) ∧
    (state.audioBuffer.length ≤ MAX_AUDIO_BUFFER_SIZE →
      (binaryHandler ext state chunk).1.audioBuffer.length ≤ MAX_AUDIO_BUFFER_SIZE) ∧
    (∀ blocks, (startHandler state blocks).1.audioBuffer = state.audioBuffer) ∧
    (stopHandler ext state).1.audioBuffer = [] ∧
    (∀ buf, (jobStep ext buf state).1.audioBuffer = state.audioBuffer) :=
  ⟨binaryHandler_overflow ext state chunk,
   binaryHandler_buffer_bound ext state chunk,
   fun blocks => startHandler_buffer state blocks,
   stopHandler_buffer ext state,
   fun buf => jobStep_buffer ext buf state⟩

/--
Closed witness for C3: an oversized chunk on a fresh session is
dropped with exactly one overflow error and no scheduled job.
-/
theorem c3_audio_buffer_overflow_witness :
    binaryHandler extId freshState (List.replicate (MAX_AUDIO_BUFFER_SIZE + 1) 0) =
      (freshState, [Sent.errorMsg "audio-buffer-overflow".toList], []) :=
  (c3_audio_buffer_overflow extId freshState _).1
    (by
      have hb : freshState.audioBuffer = [] := rfl
      rw [hb, List.length_replicate, List.length_nil]
      omega)

/--
Claim C2 (amended): after the scheduler drains, a stop with a nonempty
residual `audioBuffer` always runs the final attribute sweep over the
complete transcript before the stop response — even when no new audio
was transcribed because the voice gate rejected the residual audio or
the raw word count was below the threshold; a stop with an empty
residual `audioBuffer` responds immediately with the current
transcript and attributes, without the final sweep.
-/
theorem c2_stop_final_sweep (ext : Ext) (state : WSState) :
    (state.audioBuffer = [] →
      stopHandler ext state =
        (state, [Sent.update state.transcript state.currAttributes], [])) ∧
    (state.audioBuffer ≠ [] →
      ext.vad (repairBuffer state.audioBuffer state.webmHeader) = false →
      stopHandler ext state =
        ({ state with
            audioBuffer := [], nchunks := 0, webmHeader := none,
            currAttributes :=
              ext.finalSweep state.transcript state.template state.currAttributes },
          [Sent.update state.transcript
            (ext.finalSweep state.transcript state.template state.currAttributes)],
          [ExtCall.finalSweepCall])) ∧
    (state.audioBuffer ≠ [] →
      ∀ raw, ext.vad (repairBuffer state.audioBuffer state.webmHeader) = true →
        ext.whisper (repairBuffer state.audioBuffer state.webmHeader) = some raw →
        jsWordCount raw < MIN_WORD_COUNT →
        stopHandler ext state =
          ({ state with
              audioBuffer := [], nchunks := 0, webmHeader := none,
              currAttributes :=
                ext.finalSweep state.transcript state.template state.currAttributes },
            [Sent.update state.transcript
              (ext.finalSweep state.transcript state.template state.currAttributes)],
            [ExtCall.whisperCall, ExtCall.finalSweepCall])) ∧
    (state.audioBuffer ≠ [] →
      ∀ raw finalT, ext.vad (repairBuffer state.audioBuffer state.webmHeader) = true →
        ext.whisper (repairBuffer state.audioBuffer state.webmHeader) = some raw →
        MIN_WORD_COUNT ≤ jsWordCount raw →
        ext.revise raw = some finalT →
        stopHandler ext state =
          ({ state with
              audioBuffer := [], nchunks := 0, webmHeader := none,
              transcript := (appendWithOverlap state.transcript finalT).1,
              currTranscriptSize := (appendWithOverlap state.transcript finalT).2,
              currAttributes :=
                ext.finalSweep (appendWithOverlap state.transcript finalT).1
                  state.template state.currAttributes },
            [Sent.update (appendWithOverlap state.transcript finalT).1
              (ext.finalSweep (appendWithOverlap state.transcript finalT).1
                state.template state.currAttributes)],
            [ExtCall.whisperCall, ExtCall.reviseCall, ExtCall.finalSweepCall])) := by
  refine ⟨?_, ?_, ?_, ?_⟩
  · intro h
    unfold stopHandler
    rw [if_pos h]
  · intro hne hv
    simp [stopHandler, stopTranscribePhase, hne, hv]
  · intro hne raw hv hw hwc
    have hnle : ¬ MIN_WORD_COUNT ≤ jsWordCount raw := Nat.not_le.mpr hwc
    simp [stopHandler, stopTranscribePhase, hne, hv, hw, hnle]
  · intro hne raw finalT hv hw hle hr
    simp [stopHandler, stopTranscribePhase, hne, hv, hw, hle, hr]

/--
Counterexample for C2 as stated: on a stop with an empty residual
`audioBuffer` the handler emits the current transcript and attributes
without performing any external call — in particular no final
attribute sweep — even though the sweep oracle would have changed the
attributes.
-/
theorem c2_empty_buffer_skips_final_sweep :
    (stopHandler extSweep { freshState with transcript := "t".toList }).2.2 = [] ∧
    (stopHandler extSweep { freshState with transcript := "t".toList }).2.1 =
      [Sent.update "t".toList []] ∧
    extSweep.finalSweep "t".toList [] [] ≠ [] := by
  refine ⟨by decide, by decide, by decide⟩

/--
Closed witness for C2: a stop with a nonempty buffer that the voice
gate rejects still runs the final sweep, whose output is what the stop
response carries.
-/
theorem c2_stop_final_sweep_witness :
    stopHandler extSweep { freshState with audioBuffer := [1, 2, 3] } =
      ({ freshState with
          currAttributes := [("field".toList, "swept".toList)] },
        [Sent.update [] [("field".toList, "swept".toList)]],
        [ExtCall.finalSweepCall]) := by
  have h := (c2_stop_final_sweep extSweep
    { freshState with audioBuffer := [1, 2, 3] }).2.1 (by decide) (by decide)
  rw [h]
  decide

/--
Claim C8 (amended): in the transcription job the correction client
runs unconditionally on the raw transcription, and the word-count
threshold is applied to the corrected text: below the threshold the
job is abandoned silently (state unchanged, nothing sent); at or above
it, the corrected text is stitched into the transcript and — when the
incremental extraction call succeeds — extraction runs over the
sliding window only and one update response is emitted.
-/
theorem c8_job_word_count_gate (ext : Ext) (state : WSState) (buf : Bytes)
    (raw revised : Str)
    (hw : ext.whisper buf = some raw)
    (hr : ext.revise raw = some revised) :
    (jsWordCount revised < MIN_WORD_COUNT →
      jobStep ext buf state = (state, [])) ∧
    (MIN_WORD_COUNT ≤ jsWordCount revised →
      (jobStep ext buf state).1.transcript =
        (appendWithOverlap state.transcript revised).1 ∧
      (∀ extracted,
        ext.extract
            (jsSliceNeg (appendWithOverlap state.transcript revised).1
              (state.currTranscriptSize + (appendWithOverlap state.transcript revised).2))
            state.template state.currAttributes = some extracted →
        jobStep ext buf state =
          ({ state with
              transcript := (appendWithOverlap state.transcript revised).1,
              currTranscriptSize := (appendWithOverlap state.transcript revised).2,
              currAttributes := spreadMerge state.currAttributes extracted },
            [Sent.update
              (jsSliceNeg (appendWithOverlap state.transcript revised).1
                (state.currTranscriptSize + (appendWithOverlap state.transcript revised).2))
              (spreadMerge state.currAttributes extracted)]))) := by
  constructor
  · intro hwc
    simp [jobStep, hw, hr, hwc]
  · intro hge
    have hnlt : ¬ jsWordCount revised < MIN_WORD_COUNT := Nat.not_lt.mpr hge
    constructor
    · simp only [jobStep, hw, hr, if_neg hnlt]
      split
      · rfl
      · rfl
    · intro extracted hex
      simp [jobStep, hw, hr, hnlt, hex]

/--
Counterexample for C8 as stated: the raw transcription has 3 words
(below the minimum of 10), so the claim demands a silent abandonment;
but the code corrects first and counts the corrected text's 10 words,
so the transcript grows and an update response is emitted.
-/
theorem c8_correction_runs_before_word_count :
    jsWordCount "a b c".toList < MIN_WORD_COUNT ∧
    extRevGrow.whisper [1] = some "a b c".toList ∧
    (jobStep extRevGrow [1] freshState).2 ≠ [] ∧
    (jobStep extRevGrow [1] freshState).1.transcript ≠ freshState.transcript := by
  refine ⟨by decide, rfl, by decide, by decide⟩

/--
Closed witness for C8: when even the corrected text is below the
word-count threshold, the job leaves the state unchanged and sends
nothing.
-/
theorem c8_job_word_count_gate_witness :
    jobStep extId [1] freshState = (freshState, []) :=
  (c8_job_word_count_gate extId freshState [1] [] [] rfl rfl).1 (by decide)

end WsT
